import Mathlib

/-!
Verification of the fastify-packed composition policy (src/lib/index.ts).

The source is a conditional-registration aggregator: given a configuration
object, it decides for each of seven optional subsystems whether it is
enabled (`checkEnable`), resolves its options (`parseOption`), checks that
the backing optional dependency is installed (`requireOptionalDependency`),
and registers it with the Fastify host in a fixed order.  Dynamic JavaScript
values are modelled by the inductive `JSValue`; the host is modelled by an
event trace (`Fastify`); the ambient world (which optional modules resolve,
what `crypto.randomBytes` returned, what `env-schema` computes, the
filesystem state seen by `version()`) is an explicit `Env` parameter.
-/

/-- Model of a dynamic JavaScript value, as far as the source inspects one:
`checkEnable` distinguishes `true`, non-null non-array objects and functions;
`parseOption` may call a value as a zero-argument factory.  Objects are
association lists of fields; a factory is a Lean function on `Unit`. -/
inductive JSValue where
  | undefined
  | null
  | bool (b : Bool)
  | num (n : Int)
  | str (s : String)
  | arr (elems : List JSValue)
  | obj (fields : List (String × JSValue))
  | func (f : Unit → JSValue)

/-- Embedding of `checkEnable` (src/lib/index.ts:22-24):
`option === true || (typeof option === 'object' && option !== null &&
!Array.isArray(option)) || typeof option === 'function'`.
`none` models an omitted / `undefined` option. -/
def checkEnable (option : Option JSValue) : Bool :=
  match option with
  | some (JSValue.bool true) => true
  | some (JSValue.obj _) => true
  | some (JSValue.func _) => true
  | _ => false

/-- Embedding of `parseOption` (src/lib/index.ts:26-37): `true` yields the
default, `false` yields `{}` (as the source writes it), a function is invoked
with no arguments, anything else is returned verbatim.  An absent value
(`undefined`) falls through to the verbatim branch, as in JavaScript. -/
def parseOption (option : Option JSValue) (dflt : JSValue) : JSValue :=
  match option with
  | some (JSValue.bool true) => dflt
  | some (JSValue.bool false) => JSValue.obj []
  | some (JSValue.func f) => f ()
  | some v => v
  | none => JSValue.undefined

/-- Lowercase hex digit for a nibble, as produced by Node's
`Buffer.toString('hex')`: `0-9` then `a-f`. -/
def hexDigitChar (n : Nat) : Char :=
  if n < 10 then Char.ofNat (48 + n) else Char.ofNat (87 + n)

/-- Hex encoding of one byte: high nibble then low nibble. -/
def byteToHex (b : Fin 256) : List Char :=
  [hexDigitChar (b.val / 16), hexDigitChar (b.val % 16)]

/-- Model of `Buffer.prototype.toString('hex')` applied to a byte buffer:
two lowercase hex characters per byte. -/
def hexEncode (bs : List (Fin 256)) : String :=
  String.mk (bs.flatMap byteToHex)

/-- The sixteen lowercase hexadecimal characters: the image of the nibble
values under `hexDigitChar`. -/
def hexChars : List Char :=
  (List.range 16).map hexDigitChar

/-- Model of the world observed by `version()` (src/lib/index.ts:52-59):
whether `fs.readFileSync(path.resolve('./package.json'))` succeeds and with
what contents, what `JSON.parse` yields on a given string (`none` models a
parse exception), and the value of `process.version`. -/
structure VersionWorld where
  readPackageJson : Option String
  jsonParse : String → Option JSValue
  processVersion : String

/-- JavaScript property access `v.k`: throws (`none`) on `null` and
`undefined`, yields the field on objects when present, and yields
`undefined` on objects lacking the field and on primitives. -/
def getField (v : JSValue) (k : String) : Option JSValue :=
  match v with
  | JSValue.null => none
  | JSValue.undefined => none
  | JSValue.obj fields =>
    match fields.find? (fun p => p.fst == k) with
    | some p => some p.snd
    | none => some JSValue.undefined
  | _ => some JSValue.undefined

/-- Embedding of `version` (src/lib/index.ts:52-59): the whole body is in a
`try`; a read failure, a parse failure, or a throwing property access falls
back to `process.version`.  A successful property access is returned as-is,
which is `undefined` when the parsed manifest lacks a `version` field. -/
def version (W : VersionWorld) : JSValue :=
  match W.readPackageJson with
  | none => JSValue.str W.processVersion
  | some contents =>
    match W.jsonParse contents with
    | none => JSValue.str W.processVersion
    | some parsed =>
      match getField parsed "version" with
      | none => JSValue.str W.processVersion
      | some value => value

/-- Ambient world of a single `Packed` invocation: which optional modules
`require` can resolve (`deps`), the value of
`fastifyHelmet.contentSecurityPolicy.getDefaultDirectives()`, the bytes
returned by `crypto.randomBytes(8)` during this call, the `env-schema`
evaluation function, and the filesystem world used by `version()`. -/
structure Env where
  deps : String → Bool
  helmetDefaultDirectives : JSValue
  randomBytes8 : List (Fin 256)
  envSchema : JSValue → JSValue
  world : VersionWorld

/-- Observable host effects: a dependency lookup via
`requireOptionalDependency`, a `fastify.register(module, opts)` call, and a
`fastify.decorate(key, value)` call. -/
inductive Event where
  | depCheck (name : String)
  | registered (name : String) (opts : JSValue)
  | decorated (key : String) (value : JSValue)

/-- The Fastify host, reduced to the trace of effects performed on it. -/
structure Fastify where
  events : List Event

/-- Pairs `(key, value)` passed to `fastify.decorate`, in order. -/
def Fastify.decorations (f : Fastify) : List (String × JSValue) :=
  f.events.filterMap (fun e =>
    match e with
    | Event.decorated k v => some (k, v)
    | _ => none)

/-- Pairs `(module, opts)` passed to `fastify.register`, in order. -/
def Fastify.registrations (f : Fastify) : List (String × JSValue) :=
  f.events.filterMap (fun e =>
    match e with
    | Event.registered n o => some (n, o)
    | _ => none)

/-- The error message thrown when an enabled subsystem's module is absent.
Every branch of the source uses exactly this shape, e.g.
`'please install @fastify/cors with the following command:\nnpm install
@fastify/cors\nyarn add @fastify/cors'` (src/lib/index.ts:111). -/
def missingDepMsg (name : String) : String :=
  "please install " ++ name ++ " with the following command:\nnpm install "
    ++ name ++ "\nyarn add " ++ name

/-- One registering branch of `Packed`: if enabled, look the module up
(recorded as a `depCheck` event), throw the missing-dependency error when it
is absent, otherwise resolve options with `parseOption` and register.  An
error carries the host state at the point of the throw, so that the effects
performed before a failure stay observable. -/
def regStep (name : String) (enable : Option JSValue) (dflt : JSValue) (E : Env)
    (f : Fastify) : Except (String × Fastify) Fastify :=
  if checkEnable enable then
    let f1 : Fastify := ⟨f.events ++ [Event.depCheck name]⟩
    if E.deps name then
      Except.ok ⟨f1.events ++ [Event.registered name (parseOption enable dflt)]⟩
    else
      Except.error (missingDepMsg name, f1)
  else
    Except.ok f

/-- The environment branch of `Packed` (src/lib/index.ts:99-106): like a
registering branch, but on success it decorates `config` with the resolved
environment mapping and `VERSION` with the result of `version()`. -/
def envStep (E : Env) (enable : Option JSValue) (f : Fastify) :
    Except (String × Fastify) Fastify :=
  if checkEnable enable then
    let f1 : Fastify := ⟨f.events ++ [Event.depCheck "env-schema"]⟩
    if E.deps "env-schema" then
      let opt := parseOption enable (JSValue.obj [])
      let envData := E.envSchema opt
      Except.ok ⟨f1.events ++
        [Event.decorated "config" envData,
         Event.decorated "VERSION" (version E.world)]⟩
    else
      Except.error (missingDepMsg "env-schema", f1)
  else
    Except.ok f

/-- The `FastifyPackedOption` configuration interface
(src/lib/index.ts:41-50): each subsystem key maps to an enablement value;
`none` models an omitted key. -/
structure FastifyPackedOption where
  env : Option JSValue := none
  cors : Option JSValue := none
  helmet : Option JSValue := none
  underPressure : Option JSValue := none
  jwt : Option JSValue := none
  mongodb : Option JSValue := none
  swagger : Option JSValue := none

/-- Embedding of the `Packed` plugin body (src/lib/index.ts:95-161):
`options = options ?? {}`, then the seven subsystem branches in source
order — env, cors, swagger (placed before helmet, per the source comment),
helmet, under-pressure, jwt, mongodb — each with its literal default
options and checked module identifier. -/
def Packed (E : Env) (options : Option FastifyPackedOption) (fastify : Fastify) :
    Except (String × Fastify) Fastify := do
  let o := options.getD {}
  let fastify ← envStep E o.env fastify
  let fastify ← regStep "@fastify/cors" o.cors
    (JSValue.obj [("origin", JSValue.bool true)]) E fastify
  let fastify ← regStep "@fastify/swagger" o.swagger (JSValue.obj []) E fastify
  let fastify ← regStep "@fastify/helmet" o.helmet
    (JSValue.obj [("contentSecurityPolicy", E.helmetDefaultDirectives)]) E fastify
  let fastify ← regStep "under-pressure" o.underPressure
    (JSValue.obj [("maxEventLoopDelay", JSValue.num 1000),
      ("message", JSValue.str "System is under pressure, please try again later."),
      ("retryAfter", JSValue.num 50),
      ("exposeStatusRoute", JSValue.bool true)]) E fastify
  let fastify ← regStep "@fastify/jwt" o.jwt
    (JSValue.obj [("secret", JSValue.str (hexEncode E.randomBytes8))]) E fastify
  let fastify ← regStep "@fastify/mongodb" o.mongodb
    (JSValue.obj [("url", JSValue.str "mongodb://127.0.0.1:27017"),
      ("database", JSValue.str "default")]) E fastify
  return fastify

/-- Registering the packed plugin into a fresh host: `Packed` run from the
empty event trace. -/
def registerAll (E : Env) (options : Option FastifyPackedOption) :
    Except (String × Fastify) Fastify :=
  Packed E options ⟨[]⟩

/-- The bundle returned by `createPackedPlugin` (src/lib/index.ts:67-92),
reduced to its interesting component: the pre-resolved environment mapping.
The other two fields of the source bundle are the wrapped (unregistered)
plugin entry point and the `version` function, both already modelled
separately (`Packed`, `version`). -/
structure CreatedPackedPlugin where
  env : JSValue

/-- Embedding of `createPackedPlugin` (src/lib/index.ts:73-92): `env` starts
as `{}`; when the environment option is enabled, `env-schema` is looked up
(throwing the same missing-dependency error), options are resolved with
`parseOption`, and the schema evaluation result becomes `env`. -/
def createPackedPlugin (E : Env) (envOptions : Option JSValue) :
    Except String CreatedPackedPlugin :=
  if checkEnable envOptions then
    if E.deps "env-schema" then
      Except.ok ⟨E.envSchema (parseOption envOptions (JSValue.obj []))⟩
    else
      Except.error (missingDepMsg "env-schema")
  else
    Except.ok ⟨JSValue.obj []⟩

/-- The seven optional subsystems, named as in the specification. -/
inductive Subsystem where
  | env
  | cors
  | swagger
  | helmet
  | underPressure
  | jwt
  | mongodb
deriving DecidableEq, Fintype, Repr

/-- Module identifier each subsystem's branch passes to
`requireOptionalDependency` (note `under-pressure`, not
`@fastify/under-pressure`, per src/lib/index.ts:134). -/
def Subsystem.moduleName : Subsystem → String
  | Subsystem.env => "env-schema"
  | Subsystem.cors => "@fastify/cors"
  | Subsystem.swagger => "@fastify/swagger"
  | Subsystem.helmet => "@fastify/helmet"
  | Subsystem.underPressure => "under-pressure"
  | Subsystem.jwt => "@fastify/jwt"
  | Subsystem.mongodb => "@fastify/mongodb"

/-- The enablement value a configuration supplies for a subsystem. -/
def Subsystem.enableOf (s : Subsystem) (o : FastifyPackedOption) : Option JSValue :=
  match s with
  | Subsystem.env => o.env
  | Subsystem.cors => o.cors
  | Subsystem.swagger => o.swagger
  | Subsystem.helmet => o.helmet
  | Subsystem.underPressure => o.underPressure
  | Subsystem.jwt => o.jwt
  | Subsystem.mongodb => o.mongodb

/-- The literal built-in default options of each subsystem branch of
`Packed`. -/
def Subsystem.defaultOf (s : Subsystem) (E : Env) : JSValue :=
  match s with
  | Subsystem.env => JSValue.obj []
  | Subsystem.cors => JSValue.obj [("origin", JSValue.bool true)]
  | Subsystem.swagger => JSValue.obj []
  | Subsystem.helmet =>
    JSValue.obj [("contentSecurityPolicy", E.helmetDefaultDirectives)]
  | Subsystem.underPressure =>
    JSValue.obj [("maxEventLoopDelay", JSValue.num 1000),
      ("message", JSValue.str "System is under pressure, please try again later."),
      ("retryAfter", JSValue.num 50),
      ("exposeStatusRoute", JSValue.bool true)]
  | Subsystem.jwt => JSValue.obj [("secret", JSValue.str (hexEncode E.randomBytes8))]
  | Subsystem.mongodb =>
    JSValue.obj [("url", JSValue.str "mongodb://127.0.0.1:27017"),
      ("database", JSValue.str "default")]

/-- Position of a subsystem in the fixed processing order. -/
def Subsystem.idx : Subsystem → Nat
  | Subsystem.env => 0
  | Subsystem.cors => 1
  | Subsystem.swagger => 2
  | Subsystem.helmet => 3
  | Subsystem.underPressure => 4
  | Subsystem.jwt => 5
  | Subsystem.mongodb => 6

/-- The options a subsystem's branch passes to the host: exactly the
`parseOption` call the source makes in that branch. -/
def resolvedOption (E : Env) (o : FastifyPackedOption) (s : Subsystem) : JSValue :=
  parseOption (s.enableOf o) (s.defaultOf E)

/-- Events a subsystem's branch emits when it is enabled and its module is
present. -/
def enabledEvents (E : Env) (o : FastifyPackedOption) : Subsystem → List Event
  | Subsystem.env =>
    [Event.depCheck "env-schema",
     Event.decorated "config" (E.envSchema (resolvedOption E o Subsystem.env)),
     Event.decorated "VERSION" (version E.world)]
  | s => [Event.depCheck s.moduleName,
          Event.registered s.moduleName (resolvedOption E o s)]

/-- Events a subsystem's branch emits in a successful run: nothing when
disabled, its `enabledEvents` otherwise. -/
def subsystemEvents (E : Env) (o : FastifyPackedOption) (s : Subsystem) : List Event :=
  if checkEnable (s.enableOf o) then enabledEvents E o s else []

/-- The fixed processing order of `Packed`. -/
def subsystems : List Subsystem :=
  [Subsystem.env, Subsystem.cors, Subsystem.swagger, Subsystem.helmet,
   Subsystem.underPressure, Subsystem.jwt, Subsystem.mongodb]

/-- Dispatch a subsystem to its branch of `Packed`. -/
def stepOf (E : Env) (o : FastifyPackedOption) (s : Subsystem) (f : Fastify) :
    Except (String × Fastify) Fastify :=
  match s with
  | Subsystem.env => envStep E o.env f
  | s => regStep s.moduleName (s.enableOf o) (s.defaultOf E) E f

/-- Sequential processing of a list of subsystems, stopping at the first
error, as the `await`-sequenced branches of `Packed` do. -/
def runList (E : Env) (o : FastifyPackedOption) :
    List Subsystem → Fastify → Except (String × Fastify) Fastify
  | [], f => Except.ok f
  | s :: rest, f => do
    let f1 ← stepOf E o s f
    runList E o rest f1

/-- Subsystems strictly before a given one in the fixed order. -/
def beforeList : Subsystem → List Subsystem
  | Subsystem.env => []
  | Subsystem.cors => [Subsystem.env]
  | Subsystem.swagger => [Subsystem.env, Subsystem.cors]
  | Subsystem.helmet => [Subsystem.env, Subsystem.cors, Subsystem.swagger]
  | Subsystem.underPressure =>
    [Subsystem.env, Subsystem.cors, Subsystem.swagger, Subsystem.helmet]
  | Subsystem.jwt =>
    [Subsystem.env, Subsystem.cors, Subsystem.swagger, Subsystem.helmet,
     Subsystem.underPressure]
  | Subsystem.mongodb =>
    [Subsystem.env, Subsystem.cors, Subsystem.swagger, Subsystem.helmet,
     Subsystem.underPressure, Subsystem.jwt]

/-- Subsystems strictly after a given one in the fixed order. -/
def afterList : Subsystem → List Subsystem
  | Subsystem.env =>
    [Subsystem.cors, Subsystem.swagger, Subsystem.helmet,
     Subsystem.underPressure, Subsystem.jwt, Subsystem.mongodb]
  | Subsystem.cors =>
    [Subsystem.swagger, Subsystem.helmet, Subsystem.underPressure,
     Subsystem.jwt, Subsystem.mongodb]
  | Subsystem.swagger =>
    [Subsystem.helmet, Subsystem.underPressure, Subsystem.jwt, Subsystem.mongodb]
  | Subsystem.helmet =>
    [Subsystem.underPressure, Subsystem.jwt, Subsystem.mongodb]
  | Subsystem.underPressure => [Subsystem.jwt, Subsystem.mongodb]
  | Subsystem.jwt => [Subsystem.mongodb]
  | Subsystem.mongodb => []

/-- Concrete world with no optional module installed; used to exercise the
model on closed inputs. -/
def depsNone : String → Bool := fun _ => false

/-- Concrete world with every optional module installed. -/
def depsAll : String → Bool := fun _ => true

/-- Concrete stand-in for `JSON.parse`, defined on the three manifest
contents used in closed evaluations and throwing elsewhere. -/
def parseStub : String → Option JSValue := fun s =>
  if s = "\x7b\x7d" then some (JSValue.obj [])
  else if s = "\x7b\"version\":\"1.0.0\"\x7d" then
    some (JSValue.obj [("version", JSValue.str "1.0.0")])
  else if s = "\x7b\"version\":\"\"\x7d" then
    some (JSValue.obj [("version", JSValue.str "")])
  else none

/-- World where `package.json` is missing. -/
def worldMissing : VersionWorld :=
  ⟨none, parseStub, "v20.11.0"⟩

/-- World where `package.json` exists and its `version` field is the empty
string. -/
def worldEmptyVersion : VersionWorld :=
  ⟨some "\x7b\"version\":\"\"\x7d", parseStub, "v20.11.0"⟩

/-- Concrete environment: no optional module installed. -/
def envAllMissing : Env :=
  ⟨depsNone, JSValue.obj [], List.replicate 8 0, fun v => v, worldMissing⟩

/-- Concrete environment: every optional module installed, identity
`env-schema`, zero random bytes. -/
def envAllPresent : Env :=
  ⟨depsAll, JSValue.obj [], List.replicate 8 0, fun v => v, worldMissing⟩

/-- Concrete environment: every module installed and a manifest whose
`version` field is the empty string. -/
def envEmptyVersion : Env :=
  ⟨depsAll, JSValue.obj [], List.replicate 8 0, fun v => v, worldEmptyVersion⟩

/-- Configuration with every subsystem omitted. -/
def optAllOff : FastifyPackedOption := {}

/-- Configuration enabling only swagger, with `true`. -/
def optSwaggerOnly : FastifyPackedOption :=
  { swagger := some (JSValue.bool true) }

/-- Configuration enabling swagger and helmet, with `true`. -/
def optSwaggerHelmet : FastifyPackedOption :=
  { swagger := some (JSValue.bool true), helmet := some (JSValue.bool true) }

/-- Configuration enabling only the environment subsystem, with `true`. -/
def optEnvOnly : FastifyPackedOption :=
  { env := some (JSValue.bool true) }

/-- Configuration enabling only jwt, with `true`. -/
def optJwtOnly : FastifyPackedOption :=
  { jwt := some (JSValue.bool true) }

/-- Configuration enabling only cors, with `true`. -/
def optCorsTrue : FastifyPackedOption :=
  { cors := some (JSValue.bool true) }

/-- Expected trace of a run enabling swagger and helmet with every module
present. -/
def stSwaggerHelmet : Fastify :=
  ⟨[Event.depCheck "@fastify/swagger",
    Event.registered "@fastify/swagger" (JSValue.obj []),
    Event.depCheck "@fastify/helmet",
    Event.registered "@fastify/helmet"
      (JSValue.obj [("contentSecurityPolicy", JSValue.obj [])])]⟩

/-- Expected trace of a run enabling only the environment subsystem with a
missing manifest. -/
def stEnvOnly : Fastify :=
  ⟨[Event.depCheck "env-schema",
    Event.decorated "config" (JSValue.obj []),
    Event.decorated "VERSION" (JSValue.str "v20.11.0")]⟩

/-- Expected trace of a run enabling only the environment subsystem with a
manifest whose version field is empty. -/
def stEnvEmptyVersion : Fastify :=
  ⟨[Event.depCheck "env-schema",
    Event.decorated "config" (JSValue.obj []),
    Event.decorated "VERSION" (JSValue.str "")]⟩

/-- Expected trace of a run enabling only jwt with every module present. -/
def stJwtOnly : Fastify :=
  ⟨[Event.depCheck "@fastify/jwt",
    Event.registered "@fastify/jwt"
      (JSValue.obj [("secret", JSValue.str (hexEncode (List.replicate 8 0)))])]⟩

theorem Packed_eq_runList (E : Env) (o : FastifyPackedOption) (f : Fastify) :
    Packed E (some o) f = runList E o subsystems f := rfl

theorem runList_cons_ok (E : Env) (o : FastifyPackedOption) (s : Subsystem)
    (rest : List Subsystem) (f f1 : Fastify)
    (h : stepOf E o s f = Except.ok f1) :
    runList E o (s :: rest) f = runList E o rest f1 := by
  have hdef : runList E o (s :: rest) f =
      stepOf E o s f >>= fun g => runList E o rest g := rfl
  rw [hdef, h]
  rfl

theorem runList_cons_error (E : Env) (o : FastifyPackedOption) (s : Subsystem)
    (rest : List Subsystem) (f : Fastify) (e : String × Fastify)
    (h : stepOf E o s f = Except.error e) :
    runList E o (s :: rest) f = Except.error e := by
  have hdef : runList E o (s :: rest) f =
      stepOf E o s f >>= fun g => runList E o rest g := rfl
  rw [hdef, h]
  rfl

theorem stepOf_disabled (E : Env) (o : FastifyPackedOption) (s : Subsystem) (f : Fastify)
    (h : checkEnable (s.enableOf o) = false) :
    stepOf E o s f = Except.ok f := by
  cases s <;>
    simp only [Subsystem.enableOf] at h <;>
    simp [stepOf, envStep, regStep, Subsystem.enableOf, Subsystem.moduleName,
      Subsystem.defaultOf, h]

theorem stepOf_enabled_ok (E : Env) (o : FastifyPackedOption) (s : Subsystem) (f : Fastify)
    (h : checkEnable (s.enableOf o) = true)
    (hd : E.deps s.moduleName = true) :
    stepOf E o s f = Except.ok ⟨f.events ++ enabledEvents E o s⟩ := by
  cases s <;>
    simp only [Subsystem.enableOf] at h <;>
    simp only [Subsystem.moduleName] at hd <;>
    simp [stepOf, envStep, regStep, enabledEvents, resolvedOption,
      Subsystem.enableOf, Subsystem.defaultOf, Subsystem.moduleName, h, hd]

theorem stepOf_enabled_missing (E : Env) (o : FastifyPackedOption) (s : Subsystem)
    (f : Fastify)
    (h : checkEnable (s.enableOf o) = true)
    (hd : E.deps s.moduleName = false) :
    stepOf E o s f = Except.error (missingDepMsg s.moduleName,
      ⟨f.events ++ [Event.depCheck s.moduleName]⟩) := by
  cases s <;>
    simp only [Subsystem.enableOf] at h <;>
    simp only [Subsystem.moduleName] at hd <;>
    simp [stepOf, envStep, regStep, Subsystem.enableOf, Subsystem.defaultOf,
      Subsystem.moduleName, h, hd]

theorem runList_ok_of_deps (E : Env) (o : FastifyPackedOption) (l : List Subsystem)
    (f : Fastify)
    (h : ∀ s ∈ l, checkEnable (s.enableOf o) = true → E.deps s.moduleName = true) :
    runList E o l f = Except.ok ⟨f.events ++ (l.map (subsystemEvents E o)).flatten⟩ := by
  induction l generalizing f with
  | nil => simp [runList]
  | cons s rest ih =>
    by_cases hs : checkEnable (s.enableOf o) = true
    · have hd := h s (List.mem_cons_self s rest) hs
      rw [runList_cons_ok E o s rest f _ (stepOf_enabled_ok E o s f hs hd)]
      rw [ih _ (fun t ht => h t (List.mem_cons_of_mem _ ht))]
      simp [subsystemEvents, hs, List.append_assoc]
    · have hs2 : checkEnable (s.enableOf o) = false := by
        simpa using hs
      rw [runList_cons_ok E o s rest f _ (stepOf_disabled E o s f hs2)]
      rw [ih _ (fun t ht => h t (List.mem_cons_of_mem _ ht))]
      simp [subsystemEvents, hs2]

theorem runList_error_first (E : Env) (o : FastifyPackedOption)
    (l₁ : List Subsystem) (s : Subsystem) (l₂ : List Subsystem) (f : Fastify)
    (h₁ : ∀ t ∈ l₁, checkEnable (t.enableOf o) = true → E.deps t.moduleName = true)
    (hs : checkEnable (s.enableOf o) = true)
    (hd : E.deps s.moduleName = false) :
    runList E o (l₁ ++ s :: l₂) f =
      Except.error (missingDepMsg s.moduleName,
        ⟨f.events ++ (l₁.map (subsystemEvents E o)).flatten ++
          [Event.depCheck s.moduleName]⟩) := by
  induction l₁ generalizing f with
  | nil =>
    simp only [List.nil_append]
    rw [runList_cons_error E o s l₂ f _ (stepOf_enabled_missing E o s f hs hd)]
    simp
  | cons t rest ih =>
    by_cases ht : checkEnable (t.enableOf o) = true
    · have hdt := h₁ t (List.mem_cons_self t rest) ht
      rw [List.cons_append,
        runList_cons_ok E o t (rest ++ s :: l₂) f _ (stepOf_enabled_ok E o t f ht hdt)]
      rw [ih _ (fun u hu => h₁ u (List.mem_cons_of_mem _ hu))]
      simp [subsystemEvents, ht, List.append_assoc]
    · have ht2 : checkEnable (t.enableOf o) = false := by
        simpa using ht
      rw [List.cons_append,
        runList_cons_ok E o t (rest ++ s :: l₂) f _ (stepOf_disabled E o t f ht2)]
      rw [ih _ (fun u hu => h₁ u (List.mem_cons_of_mem _ hu))]
      simp [subsystemEvents, ht2]

theorem runList_ok_inv (E : Env) (o : FastifyPackedOption) (l : List Subsystem)
    (f st : Fastify)
    (h : runList E o l f = Except.ok st) :
    (∀ s ∈ l, checkEnable (s.enableOf o) = true → E.deps s.moduleName = true) ∧
    st.events = f.events ++ (l.map (subsystemEvents E o)).flatten := by
  induction l generalizing f with
  | nil =>
    have hst : st = f := by
      simpa [runList] using h.symm
    subst hst
    simp
  | cons s rest ih =>
    by_cases hs : checkEnable (s.enableOf o) = true
    · by_cases hd : E.deps s.moduleName = true
      · rw [runList_cons_ok E o s rest f _ (stepOf_enabled_ok E o s f hs hd)] at h
        obtain ⟨hall, hev⟩ := ih _ h
        refine ⟨?_, ?_⟩
        · intro t ht
          rcases List.mem_cons.mp ht with rfl | ht2
          · intro _
            exact hd
          · exact hall t ht2
        · rw [hev]
          simp [subsystemEvents, hs, List.append_assoc]
      · have hd2 : E.deps s.moduleName = false := by
          simpa using hd
        rw [runList_cons_error E o s rest f _ (stepOf_enabled_missing E o s f hs hd2)] at h
        exact absurd h (by simp)
    · have hs2 : checkEnable (s.enableOf o) = false := by
        simpa using hs
      rw [runList_cons_ok E o s rest f _ (stepOf_disabled E o s f hs2)] at h
      obtain ⟨hall, hev⟩ := ih _ h
      refine ⟨?_, ?_⟩
      · intro t ht
        rcases List.mem_cons.mp ht with rfl | ht2
        · intro htrue
          exact absurd htrue (by simp [hs2])
        · exact hall t ht2
      · rw [hev]
        simp [subsystemEvents, hs2]

theorem runList_error_inv (E : Env) (o : FastifyPackedOption) (l : List Subsystem)
    (f : Fastify) (msg : String) (fErr : Fastify)
    (h : runList E o l f = Except.error (msg, fErr)) :
    ∃ l₁ u l₂, l = l₁ ++ u :: l₂ ∧
      (∀ t ∈ l₁, checkEnable (t.enableOf o) = true → E.deps t.moduleName = true) ∧
      checkEnable (u.enableOf o) = true ∧ E.deps u.moduleName = false ∧
      msg = missingDepMsg u.moduleName ∧
      fErr.events = f.events ++ (l₁.map (subsystemEvents E o)).flatten ++
        [Event.depCheck u.moduleName] := by
  induction l generalizing f with
  | nil =>
    exact absurd h (by simp [runList])
  | cons s rest ih =>
    by_cases hs : checkEnable (s.enableOf o) = true
    · by_cases hd : E.deps s.moduleName = true
      · rw [runList_cons_ok E o s rest f _ (stepOf_enabled_ok E o s f hs hd)] at h
        obtain ⟨l₁, u, l₂, hl, hall, hu, hud, hmsg, hev⟩ := ih _ h
        refine ⟨s :: l₁, u, l₂, by simp [hl], ?_, hu, hud, hmsg, ?_⟩
        · intro t ht
          rcases List.mem_cons.mp ht with rfl | ht2
          · intro _
            exact hd
          · exact hall t ht2
        · rw [hev]
          simp [subsystemEvents, hs, List.append_assoc]
      · have hd2 : E.deps s.moduleName = false := by
          simpa using hd
        rw [runList_cons_error E o s rest f _ (stepOf_enabled_missing E o s f hs hd2)] at h
        have hmsg : missingDepMsg s.moduleName = msg ∧
            (⟨f.events ++ [Event.depCheck s.moduleName]⟩ : Fastify) = fErr := by
          have := h
          simp only [Except.error.injEq, Prod.mk.injEq] at this
          exact this
        refine ⟨[], s, rest, rfl, by simp, hs, hd2, hmsg.1.symm, ?_⟩
        rw [← hmsg.2]
        simp
    · have hs2 : checkEnable (s.enableOf o) = false := by
        simpa using hs
      rw [runList_cons_ok E o s rest f _ (stepOf_disabled E o s f hs2)] at h
      obtain ⟨l₁, u, l₂, hl, hall, hu, hud, hmsg, hev⟩ := ih _ h
      refine ⟨s :: l₁, u, l₂, by simp [hl], ?_, hu, hud, hmsg, ?_⟩
      · intro t ht
        rcases List.mem_cons.mp ht with rfl | ht2
        · intro htrue
          exact absurd htrue (by simp [hs2])
        · exact hall t ht2
      · rw [hev]
        simp [subsystemEvents, hs2]

theorem subsystems_decomp (s : Subsystem) :
    subsystems = beforeList s ++ s :: afterList s := by
  cases s <;> rfl

theorem mem_beforeList_iff (s t : Subsystem) : t ∈ beforeList s ↔ t.idx < s.idx := by
  cases s <;> cases t <;> decide

theorem moduleName_inj (s t : Subsystem) (h : s.moduleName = t.moduleName) : s = t := by
  cases s <;> cases t <;> first | rfl | exact absurd h (by decide)

theorem missingDepMsg_subsystem_inj (s t : Subsystem)
    (h : missingDepMsg s.moduleName = missingDepMsg t.moduleName) : s = t := by
  cases s <;> cases t <;> first | rfl | exact absurd h (by decide)

theorem mem_subsystemEvents (E : Env) (o : FastifyPackedOption) (u : Subsystem)
    (e : Event) (h : e ∈ subsystemEvents E o u) :
    e = Event.depCheck u.moduleName ∨
    (∃ opts, e = Event.registered u.moduleName opts) ∨
    (u = Subsystem.env ∧ ∃ k v, e = Event.decorated k v) := by
  unfold subsystemEvents at h
  by_cases hu : checkEnable (u.enableOf o) = true
  · rw [if_pos hu] at h
    cases u <;>
      simp only [enabledEvents, List.mem_cons, List.not_mem_nil, or_false] at h
    · rcases h with rfl | rfl | rfl
      · exact Or.inl rfl
      · exact Or.inr (Or.inr ⟨rfl, _, _, rfl⟩)
      · exact Or.inr (Or.inr ⟨rfl, _, _, rfl⟩)
    all_goals
      rcases h with rfl | rfl
    all_goals
      first
        | exact Or.inl rfl
        | exact Or.inr (Or.inl ⟨_, rfl⟩)
  · rw [if_neg hu] at h
    exact absurd h (List.not_mem_nil e)

theorem hexDigitChar_inj16 (m n : Fin 16)
    (h : hexDigitChar m.val = hexDigitChar n.val) : m = n := by
  revert h
  revert m n
  decide

theorem mem_hexChars_digit (n : Fin 16) : hexDigitChar n.val ∈ hexChars := by
  revert n
  decide

theorem byteToHex_inj (b c : Fin 256) (h : byteToHex b = byteToHex c) : b = c := by
  simp only [byteToHex, List.cons.injEq, and_true] at h
  obtain ⟨h1, h2⟩ := h
  have hb1 : b.val / 16 < 16 := Nat.div_lt_of_lt_mul (by omega)
  have hc1 : c.val / 16 < 16 := Nat.div_lt_of_lt_mul (by omega)
  have hb2 : b.val % 16 < 16 := Nat.mod_lt _ (by omega)
  have hc2 : c.val % 16 < 16 := Nat.mod_lt _ (by omega)
  have e1 : b.val / 16 = c.val / 16 :=
    congrArg Fin.val (hexDigitChar_inj16 ⟨b.val / 16, hb1⟩ ⟨c.val / 16, hc1⟩ h1)
  have e2 : b.val % 16 = c.val % 16 :=
    congrArg Fin.val (hexDigitChar_inj16 ⟨b.val % 16, hb2⟩ ⟨c.val % 16, hc2⟩ h2)
  have hb3 := Nat.div_add_mod b.val 16
  have hc3 := Nat.div_add_mod c.val 16
  exact Fin.ext (by omega)

theorem hexEncode_inj (bs cs : List (Fin 256)) (h : hexEncode bs = hexEncode cs) :
    bs = cs := by
  have hdata : bs.flatMap byteToHex = cs.flatMap byteToHex := congrArg String.data h
  clear h
  induction bs generalizing cs with
  | nil =>
    cases cs with
    | nil => rfl
    | cons c u => simp [byteToHex] at hdata
  | cons b t ih =>
    cases cs with
    | nil => simp [byteToHex] at hdata
    | cons c u =>
      simp only [List.flatMap_cons, byteToHex, List.cons_append, List.nil_append,
        List.cons.injEq] at hdata
      obtain ⟨h1, h2, h3⟩ := hdata
      rw [byteToHex_inj b c (by simp [byteToHex, h1, h2]), ih u h3]

theorem hexEncode_length (bs : List (Fin 256)) :
    (hexEncode bs).length = 2 * bs.length := by
  have : (bs.flatMap byteToHex).length = 2 * bs.length := by
    induction bs with
    | nil => rfl
    | cons b t ih =>
      have hcons : ((b :: t).flatMap byteToHex).length =
          (byteToHex b).length + (t.flatMap byteToHex).length := by
        rw [List.flatMap_cons, List.length_append]
      have hbyte : (byteToHex b).length = 2 := rfl
      rw [hcons, hbyte, ih, List.length_cons]
      omega
  simpa [hexEncode, String.length] using this

theorem hexEncode_chars (bs : List (Fin 256)) (c : Char)
    (hc : c ∈ (hexEncode bs).data) : c ∈ hexChars := by
  have hmem : c ∈ bs.flatMap byteToHex := hc
  rcases List.mem_flatMap.mp hmem with ⟨b, hb, hcb⟩
  have hb1 : b.val / 16 < 16 := Nat.div_lt_of_lt_mul (by omega)
  have hb2 : b.val % 16 < 16 := Nat.mod_lt _ (by omega)
  simp only [byteToHex, List.mem_cons, List.not_mem_nil, or_false] at hcb
  rcases hcb with rfl | rfl
  · exact mem_hexChars_digit ⟨b.val / 16, hb1⟩
  · exact mem_hexChars_digit ⟨b.val % 16, hb2⟩

theorem no_events_of_disabled (E : Env) (o : FastifyPackedOption) (s : Subsystem)
    (hdis : checkEnable (s.enableOf o) = false)
    (l : List Subsystem) (e : Event)
    (he : e ∈ (l.map (subsystemEvents E o)).flatten) :
    e ≠ Event.depCheck s.moduleName ∧
    ∀ opts, e ≠ Event.registered s.moduleName opts := by
  rcases List.mem_flatten.mp he with ⟨es, hes, hin⟩
  rcases List.mem_map.mp hes with ⟨u, hu, rfl⟩
  by_cases hus : u = s
  · subst hus
    rw [show subsystemEvents E o u = [] from by simp [subsystemEvents, hdis]] at hin
    exact absurd hin (List.not_mem_nil e)
  · rcases mem_subsystemEvents E o u e hin with h | ⟨opts, h⟩ | ⟨_, k, v, h⟩
    · subst h
      refine ⟨fun hc => ?_, fun opts hc => ?_⟩
      · injection hc with hn
        exact hus (moduleName_inj u s hn)
      · exact Event.noConfusion hc
    · subst h
      refine ⟨fun hc => Event.noConfusion hc, fun opts2 hc => ?_⟩
      injection hc with hn
      exact hus (moduleName_inj u s hn)
    · subst h
      exact ⟨fun hc => Event.noConfusion hc, fun opts hc => Event.noConfusion hc⟩

/-- Claim C2 counterexample: the string value `'yes'` is neither `false` nor
omitted, yet `checkEnable` reports it disabled — refuting the claim that any
non-false, non-omitted enablement value is treated as enabled. -/
theorem checkEnable_truthy_counterexample :
    checkEnable (some (JSValue.str "yes")) = false ∧
    JSValue.str "yes" ≠ JSValue.bool false :=
  ⟨rfl, fun h => JSValue.noConfusion h⟩

/-- Claim C2 (amended): `false` and omission are disabled, and a value is
enabled exactly when it is boolean `true`, an object (non-null, non-array) or
a function; truthy values of any other shape (strings, numbers, arrays) are
treated as disabled, not defaulted. -/
theorem checkEnable_enabled_iff (v : Option JSValue) :
    checkEnable v = true ↔
      v = some (JSValue.bool true) ∨
      (∃ fields, v = some (JSValue.obj fields)) ∨
      (∃ f, v = some (JSValue.func f)) := by
  constructor
  · intro h
    cases v with
    | none => exact absurd h (by simp [checkEnable])
    | some x =>
      cases x with
      | bool b =>
        cases b with
        | true => exact Or.inl rfl
        | false => exact absurd h (by simp [checkEnable])
      | obj fields => exact Or.inr (Or.inl ⟨fields, rfl⟩)
      | func f => exact Or.inr (Or.inr ⟨f, rfl⟩)
      | undefined => exact absurd h (by simp [checkEnable])
      | null => exact absurd h (by simp [checkEnable])
      | num n => exact absurd h (by simp [checkEnable])
      | str s => exact absurd h (by simp [checkEnable])
      | arr es => exact absurd h (by simp [checkEnable])
  · rintro (rfl | ⟨fields, rfl⟩ | ⟨f, rfl⟩) <;> rfl

/-- Claim C4: `version()` never raises and falls back to the runtime version
when the manifest is missing or unparsable, and returns the version field when
present; but when the manifest parses to an object lacking a `version` field,
the code returns `undefined` (the bare property access) instead of the
runtime's version identifier, contradicting the claim and the function's own
declared `string` return type. -/
theorem version_field_absent_divergence :
    version ⟨some "\x7b\x7d", parseStub, "v20.11.0"⟩ = JSValue.undefined ∧
    JSValue.undefined ≠ JSValue.str "v20.11.0" ∧
    version ⟨none, parseStub, "v20.11.0"⟩ = JSValue.str "v20.11.0" ∧
    version ⟨some "not json", parseStub, "v20.11.0"⟩ = JSValue.str "v20.11.0" ∧
    version ⟨some "\x7b\"version\":\"1.0.0\"\x7d", parseStub, "v20.11.0"⟩ =
      JSValue.str "1.0.0" :=
  ⟨rfl, fun h => JSValue.noConfusion h, rfl, rfl, rfl⟩

/-- Claim C5: option resolution for an enabled subsystem yields the built-in
default on `true`, the factory result verbatim on a function, the supplied
object verbatim otherwise; and each subsystem's default is the literal the
source writes (open CORS origin, empty env and swagger options, helmet's
published default directives, the under-pressure thresholds, an 8-byte hex
secret, the mongodb url and database). -/
theorem option_resolution (E : Env) (o : FastifyPackedOption) (s : Subsystem) :
    (s.enableOf o = some (JSValue.bool true) → resolvedOption E o s = s.defaultOf E) ∧
    (∀ f, s.enableOf o = some (JSValue.func f) → resolvedOption E o s = f ()) ∧
    (∀ fields, s.enableOf o = some (JSValue.obj fields) →
      resolvedOption E o s = JSValue.obj fields) ∧
    Subsystem.env.defaultOf E = JSValue.obj [] ∧
    Subsystem.cors.defaultOf E = JSValue.obj [("origin", JSValue.bool true)] ∧
    Subsystem.swagger.defaultOf E = JSValue.obj [] ∧
    Subsystem.helmet.defaultOf E =
      JSValue.obj [("contentSecurityPolicy", E.helmetDefaultDirectives)] ∧
    Subsystem.underPressure.defaultOf E =
      JSValue.obj [("maxEventLoopDelay", JSValue.num 1000),
        ("message", JSValue.str "System is under pressure, please try again later."),
        ("retryAfter", JSValue.num 50),
        ("exposeStatusRoute", JSValue.bool true)] ∧
    Subsystem.jwt.defaultOf E =
      JSValue.obj [("secret", JSValue.str (hexEncode E.randomBytes8))] ∧
    Subsystem.mongodb.defaultOf E =
      JSValue.obj [("url", JSValue.str "mongodb://127.0.0.1:27017"),
        ("database", JSValue.str "default")] := by
  refine ⟨?_, ?_, ?_, rfl, rfl, rfl, rfl, rfl, rfl, rfl⟩
  · intro h
    unfold resolvedOption
    rw [h]
    rfl
  · intro f h
    unfold resolvedOption
    rw [h]
    rfl
  · intro fields h
    unfold resolvedOption
    rw [h]
    rfl

/-- Claim C5 witness: cors enabled with `true` resolves to the open-origin
default. -/
theorem option_resolution_witness :
    resolvedOption envAllMissing optCorsTrue Subsystem.cors =
      Subsystem.cors.defaultOf envAllMissing :=
  (option_resolution envAllMissing optCorsTrue Subsystem.cors).1 rfl

/-- Claim C10: whenever `checkEnable` holds — as it does at every call site of
`parseOption` in `Packed` and `createPackedPlugin`, which guard each call with
it — the argument is neither `false` nor omitted, so `parseOption`'s
`option === false` branch is unreachable and the result is the default (on
`true`), the factory's result (on a function), or the supplied object. -/
theorem parseOption_false_branch_unreachable (v : Option JSValue) (d : JSValue)
    (h : checkEnable v = true) :
    v ≠ some (JSValue.bool false) ∧ v ≠ none ∧
    ((v = some (JSValue.bool true) ∧ parseOption v d = d) ∨
     (∃ f, v = some (JSValue.func f) ∧ parseOption v d = f ()) ∨
     (∃ fields, v = some (JSValue.obj fields) ∧ parseOption v d = JSValue.obj fields)) := by
  cases v with
  | none => exact absurd h (by simp [checkEnable])
  | some x =>
    cases x with
    | bool b =>
      cases b with
      | true => exact ⟨by simp, by simp, Or.inl ⟨rfl, rfl⟩⟩
      | false => exact absurd h (by simp [checkEnable])
    | func f => exact ⟨by simp, by simp, Or.inr (Or.inl ⟨f, rfl, rfl⟩)⟩
    | obj fields => exact ⟨by simp, by simp, Or.inr (Or.inr ⟨fields, rfl, rfl⟩)⟩
    | undefined => exact absurd h (by simp [checkEnable])
    | null => exact absurd h (by simp [checkEnable])
    | num n => exact absurd h (by simp [checkEnable])
    | str s => exact absurd h (by simp [checkEnable])
    | arr es => exact absurd h (by simp [checkEnable])

/-- Claim C10 witness: the guard holds for `true` and excludes `false`. -/
theorem parseOption_false_branch_unreachable_witness :
    checkEnable (some (JSValue.bool true)) = true ∧
    some (JSValue.bool true) ≠ some (JSValue.bool false) :=
  ⟨rfl, (parseOption_false_branch_unreachable (some (JSValue.bool true))
    (JSValue.obj []) rfl).1⟩

/-- Claim C1: for any configuration, if a subsystem is enabled, its backing
module is absent, and processing reaches it (every earlier enabled subsystem's
module is present), then `registerAll` fails with the Missing Optional
Dependency error whose message names exactly that module identifier and both
installation commands (`npm install`, `yarn add`), the failing subsystem is
not registered, and no later subsystem is dependency-checked or registered. -/
theorem registerAll_missing_dep_fail_fast
    (E : Env) (o : FastifyPackedOption) (s : Subsystem)
    (hs : checkEnable (s.enableOf o) = true)
    (hmiss : E.deps s.moduleName = false)
    (hfirst : ∀ t : Subsystem, t.idx < s.idx →
      checkEnable (t.enableOf o) = true → E.deps t.moduleName = true) :
    ∃ fErr : Fastify,
      registerAll E (some o) = Except.error (missingDepMsg s.moduleName, fErr) ∧
      missingDepMsg s.moduleName =
        "please install " ++ s.moduleName ++
          " with the following command:\nnpm install " ++ s.moduleName ++
          "\nyarn add " ++ s.moduleName ∧
      (∀ t : Subsystem, s.idx ≤ t.idx → ∀ opts,
        Event.registered t.moduleName opts ∉ fErr.events) ∧
      (∀ t : Subsystem, s.idx < t.idx →
        Event.depCheck t.moduleName ∉ fErr.events) := by
  have h₁ : ∀ t ∈ beforeList s,
      checkEnable (t.enableOf o) = true → E.deps t.moduleName = true :=
    fun t ht => hfirst t ((mem_beforeList_iff s t).mp ht)
  refine ⟨⟨((beforeList s).map (subsystemEvents E o)).flatten ++
    [Event.depCheck s.moduleName]⟩, ?_, rfl, ?_, ?_⟩
  · unfold registerAll
    rw [Packed_eq_runList, subsystems_decomp s,
      runList_error_first E o (beforeList s) s (afterList s) ⟨[]⟩ h₁ hs hmiss]
    simp
  · intro t hts opts hmem
    rcases List.mem_append.mp hmem with hmem | hmem
    · rcases List.mem_flatten.mp hmem with ⟨es, hes, hin⟩
      rcases List.mem_map.mp hes with ⟨u, hu, rfl⟩
      rcases mem_subsystemEvents E o u _ hin with h | ⟨opts2, h⟩ | ⟨_, k, v, h⟩
      · exact Event.noConfusion h
      · injection h with hn _
        have huts : u = t := moduleName_inj u t hn.symm
        subst huts
        have : u.idx < s.idx := (mem_beforeList_iff s u).mp hu
        omega
      · exact Event.noConfusion h
    · rcases List.mem_singleton.mp hmem with h
      exact Event.noConfusion h
  · intro t hts hmem
    rcases List.mem_append.mp hmem with hmem | hmem
    · rcases List.mem_flatten.mp hmem with ⟨es, hes, hin⟩
      rcases List.mem_map.mp hes with ⟨u, hu, rfl⟩
      rcases mem_subsystemEvents E o u _ hin with h | ⟨opts2, h⟩ | ⟨_, k, v, h⟩
      · injection h with hn
        have huts : u = t := moduleName_inj u t hn.symm
        subst huts
        have : u.idx < s.idx := (mem_beforeList_iff s u).mp hu
        omega
      · exact Event.noConfusion h
      · exact Event.noConfusion h
    · have h := List.mem_singleton.mp hmem
      injection h with hn
      have : t = s := moduleName_inj t s hn
      subst this
      omega

/-- Claim C1 witness: with no module installed and only swagger enabled,
registration fails naming `@fastify/swagger`, registers nothing, and checks no
later subsystem. -/
theorem registerAll_missing_dep_fail_fast_witness :
    ∃ fErr : Fastify,
      registerAll envAllMissing (some optSwaggerOnly) =
        Except.error (missingDepMsg Subsystem.swagger.moduleName, fErr) ∧
      missingDepMsg Subsystem.swagger.moduleName =
        "please install " ++ Subsystem.swagger.moduleName ++
          " with the following command:\nnpm install " ++
          Subsystem.swagger.moduleName ++
          "\nyarn add " ++ Subsystem.swagger.moduleName ∧
      (∀ t : Subsystem, Subsystem.swagger.idx ≤ t.idx → ∀ opts,
        Event.registered t.moduleName opts ∉ fErr.events) ∧
      (∀ t : Subsystem, Subsystem.swagger.idx < t.idx →
        Event.depCheck t.moduleName ∉ fErr.events) :=
  registerAll_missing_dep_fail_fast envAllMissing optSwaggerOnly
    Subsystem.swagger rfl rfl (by decide)

/-- Claim C7: when every subsystem is disabled or omitted, `registerAll`
succeeds with an empty effect trace (zero registrations, zero decorations);
and registering with no configuration argument behaves identically to
registering with the empty configuration object. -/
theorem registerAll_all_disabled_noop
    (E : Env) (o : FastifyPackedOption)
    (h : ∀ s : Subsystem, checkEnable (s.enableOf o) = false) :
    registerAll E (some o) = Except.ok ⟨[]⟩ ∧
    (∀ (E2 : Env) (f : Fastify), Packed E2 none f = Packed E2 (some {}) f) := by
  constructor
  · unfold registerAll
    rw [Packed_eq_runList,
      runList_ok_of_deps E o subsystems ⟨[]⟩
        (fun s _ hs => absurd hs (by simp [h s]))]
    simp [subsystems, subsystemEvents, h]
  · intro E2 f
    rfl

/-- Claim C7 witness: the empty configuration with no module installed. -/
theorem registerAll_all_disabled_noop_witness :
    registerAll envAllMissing (some optAllOff) = Except.ok ⟨[]⟩ :=
  (registerAll_all_disabled_noop envAllMissing optAllOff (by decide)).1

/-- Claim C3: a successful `registerAll` run's effect trace is the
concatenation, over the fixed subsystem list env, cors, swagger, helmet,
under-pressure, jwt, mongodb in that order, of each enabled subsystem's
events; in particular, with api-docs (swagger) and security-headers (helmet)
both enabled, the swagger registration event occurs strictly before the
helmet registration event. -/
theorem registerAll_fixed_order
    (E : Env) (o : FastifyPackedOption) (st : Fastify)
    (hok : registerAll E (some o) = Except.ok st)
    (hsw : checkEnable o.swagger = true)
    (hhel : checkEnable o.helmet = true) :
    st.events = (subsystems.map (subsystemEvents E o)).flatten ∧
    subsystems = [Subsystem.env, Subsystem.cors, Subsystem.swagger,
      Subsystem.helmet, Subsystem.underPressure, Subsystem.jwt,
      Subsystem.mongodb] ∧
    ∃ pre mid post o₁ o₂,
      st.events = pre ++ Event.registered "@fastify/swagger" o₁ ::
        (mid ++ Event.registered "@fastify/helmet" o₂ :: post) := by
  unfold registerAll at hok
  rw [Packed_eq_runList] at hok
  obtain ⟨hall, hev⟩ := runList_ok_inv E o subsystems ⟨[]⟩ st hok
  have hev2 : st.events = (subsystems.map (subsystemEvents E o)).flatten := by
    simpa using hev
  have hswE : subsystemEvents E o Subsystem.swagger =
      [Event.depCheck "@fastify/swagger",
       Event.registered "@fastify/swagger" (resolvedOption E o Subsystem.swagger)] := by
    simp [subsystemEvents, Subsystem.enableOf, hsw, enabledEvents, Subsystem.moduleName]
  have hhelE : subsystemEvents E o Subsystem.helmet =
      [Event.depCheck "@fastify/helmet",
       Event.registered "@fastify/helmet" (resolvedOption E o Subsystem.helmet)] := by
    simp [subsystemEvents, Subsystem.enableOf, hhel, enabledEvents, Subsystem.moduleName]
  refine ⟨hev2, rfl,
    subsystemEvents E o Subsystem.env ++ subsystemEvents E o Subsystem.cors ++
      [Event.depCheck "@fastify/swagger"],
    [Event.depCheck "@fastify/helmet"],
    subsystemEvents E o Subsystem.underPressure ++
      subsystemEvents E o Subsystem.jwt ++
      subsystemEvents E o Subsystem.mongodb,
    resolvedOption E o Subsystem.swagger,
    resolvedOption E o Subsystem.helmet, ?_⟩
  rw [hev2]
  simp [subsystems, hswE, hhelE, List.append_assoc]

/-- Claim C3 witness: swagger and helmet both enabled with every module
present produce the swagger registration before the helmet registration. -/
theorem registerAll_fixed_order_witness :
    stSwaggerHelmet.events =
      (subsystems.map (subsystemEvents envAllPresent optSwaggerHelmet)).flatten :=
  (registerAll_fixed_order envAllPresent optSwaggerHelmet stSwaggerHelmet
    rfl rfl rfl).1

/-- Claim C6: for a disabled (false or omitted) subsystem, no dependency
lookup for its module occurs and its registration entry point is never
invoked — in a successful run and in a failed run alike — and a failure, if
any, is never the missing-dependency error for that subsystem's module. -/
theorem registerAll_disabled_subsystem_skipped
    (E : Env) (o : FastifyPackedOption) (s : Subsystem)
    (hdis : checkEnable (s.enableOf o) = false) :
    (∀ st, registerAll E (some o) = Except.ok st →
      Event.depCheck s.moduleName ∉ st.events ∧
      ∀ opts, Event.registered s.moduleName opts ∉ st.events) ∧
    (∀ msg fErr, registerAll E (some o) = Except.error (msg, fErr) →
      msg ≠ missingDepMsg s.moduleName ∧
      Event.depCheck s.moduleName ∉ fErr.events ∧
      ∀ opts, Event.registered s.moduleName opts ∉ fErr.events) := by
  constructor
  · intro st hok
    unfold registerAll at hok
    rw [Packed_eq_runList] at hok
    obtain ⟨hall, hev⟩ := runList_ok_inv E o subsystems ⟨[]⟩ st hok
    have hev2 : st.events = (subsystems.map (subsystemEvents E o)).flatten := by
      simpa using hev
    refine ⟨fun hc => ?_, fun opts hc => ?_⟩
    · exact (no_events_of_disabled E o s hdis subsystems _ (hev2 ▸ hc)).1 rfl
    · exact (no_events_of_disabled E o s hdis subsystems _ (hev2 ▸ hc)).2 opts rfl
  · intro msg fErr herr
    unfold registerAll at herr
    rw [Packed_eq_runList] at herr
    obtain ⟨l₁, u, l₂, hl, hall, hu, hud, hmsg, hev⟩ :=
      runList_error_inv E o subsystems ⟨[]⟩ msg fErr herr
    have hus : u ≠ s := by
      intro hc
      subst hc
      rw [hdis] at hu
      exact Bool.noConfusion hu
    have hev2 : fErr.events = (l₁.map (subsystemEvents E o)).flatten ++
        [Event.depCheck u.moduleName] := by
      simpa using hev
    refine ⟨?_, fun hc => ?_, fun opts hc => ?_⟩
    · rw [hmsg]
      intro hc
      exact hus (missingDepMsg_subsystem_inj u s hc)
    · rw [hev2] at hc
      rcases List.mem_append.mp hc with hmem | hmem
      · exact (no_events_of_disabled E o s hdis l₁ _ hmem).1 rfl
      · have h := List.mem_singleton.mp hmem
        injection h with hn
        exact hus (moduleName_inj u s hn.symm)
    · rw [hev2] at hc
      rcases List.mem_append.mp hc with hmem | hmem
      · exact (no_events_of_disabled E o s hdis l₁ _ hmem).2 opts rfl
      · exact Event.noConfusion (List.mem_singleton.mp hmem)

/-- Claim C6 witness: with everything omitted, cors is never
dependency-checked. -/
theorem registerAll_disabled_subsystem_skipped_witness :
    Event.depCheck Subsystem.cors.moduleName ∉ (Fastify.mk []).events :=
  ((registerAll_disabled_subsystem_skipped envAllMissing optAllOff
    Subsystem.cors rfl).1 ⟨[]⟩ rfl).1

/-- Claim C8 counterexample: with environment validation enabled and a
manifest whose `version` field is the empty string, `registerAll` succeeds
and the complete decoration list is `config` plus a `VERSION` value that is
the empty string — so host-wide state does not contain a non-empty version
string, refuting the claim at this input. -/
theorem env_version_not_nonempty_counterexample :
    checkEnable optEnvOnly.env = true ∧
    registerAll envEmptyVersion (some optEnvOnly) = Except.ok stEnvEmptyVersion ∧
    stEnvEmptyVersion.decorations =
      [("config", JSValue.obj []), ("VERSION", JSValue.str "")] ∧
    String.length "" = 0 :=
  ⟨rfl, rfl, rfl, rfl⟩

/-- Claim C8 (amended): if environment validation is enabled, a successful
`registerAll` leaves exactly two host decorations — the resolved environment
mapping under `config` and the result of the version lookup under `VERSION`
(a version string when available, but not guaranteed non-empty) — and
`createPackedPlugin` with the same environment options returns the identical
resolved environment mapping without a host. -/
theorem registerAll_env_decorations
    (E : Env) (o : FastifyPackedOption) (st : Fastify)
    (henv : checkEnable o.env = true)
    (hok : registerAll E (some o) = Except.ok st) :
    st.decorations =
      [("config", E.envSchema (parseOption o.env (JSValue.obj []))),
       ("VERSION", version E.world)] ∧
    createPackedPlugin E o.env =
      Except.ok ⟨E.envSchema (parseOption o.env (JSValue.obj []))⟩ := by
  unfold registerAll at hok
  rw [Packed_eq_runList] at hok
  obtain ⟨hall, hev⟩ := runList_ok_inv E o subsystems ⟨[]⟩ st hok
  have hev2 : st.events = (subsystems.map (subsystemEvents E o)).flatten := by
    simpa using hev
  have hdeps : E.deps "env-schema" = true := by
    have h1 := hall Subsystem.env (by simp [subsystems])
      (by simpa [Subsystem.enableOf] using henv)
    simpa [Subsystem.moduleName] using h1
  constructor
  · have hdecoEnv : (subsystemEvents E o Subsystem.env).filterMap
        (fun e => match e with
          | Event.decorated k v => some (k, v)
          | _ => none) =
        [("config", E.envSchema (parseOption o.env (JSValue.obj []))),
         ("VERSION", version E.world)] := by
      simp [subsystemEvents, Subsystem.enableOf, henv, enabledEvents,
        resolvedOption, Subsystem.defaultOf, List.filterMap_cons]
    have hdecoOther : ∀ u : Subsystem, u ≠ Subsystem.env →
        (subsystemEvents E o u).filterMap
          (fun e => match e with
            | Event.decorated k v => some (k, v)
            | _ => none) = [] := by
      intro u hu
      unfold subsystemEvents
      by_cases hcu : checkEnable (u.enableOf o) = true
      · rw [if_pos hcu]
        cases u
        · exact absurd rfl hu
        all_goals simp [enabledEvents, List.filterMap_cons]
      · rw [if_neg hcu]
        rfl
    unfold Fastify.decorations
    rw [hev2]
    have hc1 := hdecoOther Subsystem.cors (by decide)
    have hc2 := hdecoOther Subsystem.swagger (by decide)
    have hc3 := hdecoOther Subsystem.helmet (by decide)
    have hc4 := hdecoOther Subsystem.underPressure (by decide)
    have hc5 := hdecoOther Subsystem.jwt (by decide)
    have hc6 := hdecoOther Subsystem.mongodb (by decide)
    simp [subsystems, List.filterMap_append, hdecoEnv, hc1, hc2, hc3, hc4, hc5, hc6]
  · unfold createPackedPlugin
    rw [if_pos henv, if_pos hdeps]

/-- Claim C8 witness: environment enabled with every module present and a
missing manifest. -/
theorem registerAll_env_decorations_witness :
    stEnvOnly.decorations =
      [("config", envAllPresent.envSchema
          (parseOption optEnvOnly.env (JSValue.obj []))),
       ("VERSION", version envAllPresent.world)] ∧
    createPackedPlugin envAllPresent optEnvOnly.env =
      Except.ok ⟨envAllPresent.envSchema
        (parseOption optEnvOnly.env (JSValue.obj []))⟩ :=
  registerAll_env_decorations envAllPresent optEnvOnly stEnvOnly rfl rfl

/-- Claim C9: when token-issuance is enabled with boolean `true`, a successful
`registerAll` registers `@fastify/jwt` with a secret that is exactly the hex
encoding of the 8 random bytes drawn for this call: 16 characters, all
hexadecimal; and the encoding is injective, so calls whose random draws
differ produce different secrets. -/
theorem registerAll_jwt_secret
    (E : Env) (o : FastifyPackedOption) (st : Fastify)
    (hjwt : o.jwt = some (JSValue.bool true))
    (hlen : E.randomBytes8.length = 8)
    (hok : registerAll E (some o) = Except.ok st) :
    Event.registered "@fastify/jwt"
      (JSValue.obj [("secret", JSValue.str (hexEncode E.randomBytes8))]) ∈
        st.events ∧
    (hexEncode E.randomBytes8).length = 16 ∧
    (∀ c ∈ (hexEncode E.randomBytes8).data, c ∈ hexChars) ∧
    (∀ bs : List (Fin 256), hexEncode bs = hexEncode E.randomBytes8 →
      bs = E.randomBytes8) := by
  unfold registerAll at hok
  rw [Packed_eq_runList] at hok
  obtain ⟨hall, hev⟩ := runList_ok_inv E o subsystems ⟨[]⟩ st hok
  have hev2 : st.events = (subsystems.map (subsystemEvents E o)).flatten := by
    simpa using hev
  refine ⟨?_, ?_, ?_, ?_⟩
  · rw [hev2]
    have hjwE : subsystemEvents E o Subsystem.jwt =
        [Event.depCheck "@fastify/jwt",
         Event.registered "@fastify/jwt"
           (JSValue.obj [("secret", JSValue.str (hexEncode E.randomBytes8))])] := by
      simp [subsystemEvents, Subsystem.enableOf, hjwt, checkEnable, enabledEvents,
        resolvedOption, Subsystem.defaultOf, Subsystem.moduleName, parseOption]
    refine List.mem_flatten.mpr ⟨subsystemEvents E o Subsystem.jwt,
      List.mem_map_of_mem _ (by simp [subsystems]), ?_⟩
    rw [hjwE]
    simp
  · rw [hexEncode_length, hlen]
  · exact fun c hc => hexEncode_chars E.randomBytes8 c hc
  · exact fun bs hbs => hexEncode_inj bs E.randomBytes8 hbs

/-- Claim C9 witness: a concrete run with jwt enabled yields a 16-character
secret. -/
theorem registerAll_jwt_secret_witness :
    (hexEncode envAllPresent.randomBytes8).length = 16 :=
  (registerAll_jwt_secret envAllPresent optJwtOnly stJwtOnly rfl rfl rfl).2.1
